import Mathlib

/-!
Verification of the hotness-scoring and trending-topic engine of the
hotstrend dashboard (`src/utils/helpers.js`).

JavaScript numbers on the paths exercised here are exact decimal/rational
values, except that an invalid `Date` produces `NaN` which then flows
through the arithmetic.  We therefore model a JS number as `JSNum`:
either `NaN` or a rational value.  (Division by zero never occurs on a
reachable path: the divisor is either the constant 3600000, the constant
4, or `hoursOld`, which is `NaN` or at least 0.1.)
-/

/-- A JavaScript number as it occurs in the hotness engine: `NaN` or an
exact rational value. -/
inductive JSNum where
  | nan : JSNum
  | val : ℚ → JSNum
deriving DecidableEq

/-- JS subtraction; `NaN` propagates. -/
def JSNum.sub : JSNum → JSNum → JSNum
  | .val a, .val b => .val (a - b)
  | _, _ => .nan

/-- JS division; `NaN` propagates.  The divisor is never zero on any
reachable path of the engine (JS would give `±Infinity` there). -/
def JSNum.div : JSNum → JSNum → JSNum
  | .val a, .val b => if b = 0 then .nan else .val (a / b)
  | _, _ => .nan

/-- JS multiplication; `NaN` propagates. -/
def JSNum.mul : JSNum → JSNum → JSNum
  | .val a, .val b => .val (a * b)
  | _, _ => .nan

/-- `Math.max`; returns `NaN` if either argument is `NaN`. -/
def jsMax : JSNum → JSNum → JSNum
  | .val a, .val b => .val (max a b)
  | _, _ => .nan

/-- The comparison `c <= x` as JS evaluates it: `false` when `x` is `NaN`. -/
def JSNum.geC : JSNum → ℚ → Bool
  | .nan, _ => false
  | .val q, c => decide (c ≤ q)

/-- The comparison `x < c` as JS evaluates it: `false` when `x` is `NaN`. -/
def JSNum.ltC : JSNum → ℚ → Bool
  | .nan, _ => false
  | .val q, c => decide (q < c)

/-- `Math.round` on a rational: round half toward positive infinity. -/
def jsRound (q : ℚ) : ℤ := ⌊q + 1/2⌋

/-- `Math.round(x * 10) / 10`: rounding to one decimal place, on a rational. -/
def round10 (q : ℚ) : ℚ := (jsRound (q * 10) : ℚ) / 10

/-- `Math.round(x * 10) / 10` lifted to JS numbers; `Math.round(NaN)` is `NaN`. -/
def JSNum.round10N : JSNum → JSNum
  | .nan => .nan
  | .val q => .val (round10 q)

/-- `String(Math.round(x))` as JS produces it. -/
def JSNum.roundToString : JSNum → String
  | .nan => "NaN"
  | .val q => toString (jsRound q)

/-- The `timestamp` argument of `calculateHotness`: `null`, `undefined`,
some other non-`Date` value, an invalid `Date` (time value `NaN`), or a
valid `Date` whose time value is `t` milliseconds since the epoch. -/
inductive JSTimestamp where
  | null : JSTimestamp
  | undef : JSTimestamp
  | notDate : JSTimestamp
  | invalidDate : JSTimestamp
  | date : ℚ → JSTimestamp
deriving DecidableEq

/-- The time value `now - timestamp` produces when `timestamp` passed the
`!timestamp || !(timestamp instanceof Date)` guard: the stored milliseconds
for a valid `Date`, `NaN` for an invalid one. -/
def JSTimestamp.timeValue : JSTimestamp → JSNum
  | .date t => .val t
  | _ => .nan

/-- The object returned by `calculateHotness`.  The sentinel branch returns
an object literal without an `hoursOld` property; we model the possibly
missing property as an `Option` (`none` = property absent). -/
structure HotnessResult where
  score : JSNum
  velocity : JSNum
  level : String
  reason : Option String
  hoursOld : Option JSNum
deriving DecidableEq

/-- The sentinel `{ score: 0, velocity: 0, level: 'cold', reason: null }`. -/
def coldSentinel : HotnessResult :=
  HotnessResult.mk (.val 0) (.val 0) "cold" none none

/-- `calculateHotness(points, timestamp)` from `src/utils/helpers.js`,
with the current time `now` (milliseconds) passed explicitly. -/
def calculateHotness (now points : ℚ) (timestamp : JSTimestamp) : HotnessResult :=
  match timestamp with
  | .null | .undef | .notDate => coldSentinel
  | ts =>
    let hoursOld := jsMax (((JSNum.val now).sub ts.timeValue).div (.val 3600000)) (.val (1/10))
    let velocity := (JSNum.val points).div hoursOld
    let recencyMultiplier := jsMax (.val 1) ((JSNum.val 3).sub (hoursOld.div (.val 4)))
    let score := velocity.mul recencyMultiplier
    let levelReason : String × Option String :=
      if score.geC 100 then
        ("fire", some ("🔥 " ++ velocity.roundToString ++ " pts/hr"))
      else if score.geC 50 then
        ("hot", some ("🔥 " ++ velocity.roundToString ++ " pts/hr"))
      else if score.geC 20 then
        ("warm", some ("📈 " ++ velocity.roundToString ++ " pts/hr"))
      else if score.geC 5 then
        ("mild", if hoursOld.ltC 2 then some "🆕 Fresh" else none)
      else
        ("cold", none)
    HotnessResult.mk score.round10N velocity.round10N levelReason.1 levelReason.2
      (some hoursOld.round10N)

/-- The unrounded `hoursOld` on the valid-`Date` path. -/
def hoursOldQ (now t : ℚ) : ℚ := max ((now - t) / 3600000) (1/10)

/-- The unrounded `velocity` on the valid-`Date` path. -/
def velocityQ (now t points : ℚ) : ℚ := points / hoursOldQ now t

/-- The unrounded `recencyMultiplier` on the valid-`Date` path. -/
def recencyMultiplierQ (now t : ℚ) : ℚ := max 1 (3 - hoursOldQ now t / 4)

/-- The unrounded `score` on the valid-`Date` path. -/
def scoreQ (now t points : ℚ) : ℚ := velocityQ now t points * recencyMultiplierQ now t

/-- The level cascade of `calculateHotness` as a function of the unrounded score. -/
def levelOfScore (s : ℚ) : String :=
  if 100 ≤ s then "fire"
  else if 50 ≤ s then "hot"
  else if 20 ≤ s then "warm"
  else if 5 ≤ s then "mild"
  else "cold"

/-- The reason cascade of `calculateHotness` as a function of the unrounded
score, velocity and age. -/
def reasonOfScore (s v h : ℚ) : Option String :=
  if 100 ≤ s then some ("🔥 " ++ toString (jsRound v) ++ " pts/hr")
  else if 50 ≤ s then some ("🔥 " ++ toString (jsRound v) ++ " pts/hr")
  else if 20 ≤ s then some ("📈 " ++ toString (jsRound v) ++ " pts/hr")
  else if 5 ≤ s then (if h < 2 then some "🆕 Fresh" else none)
  else none

/-- Rank of a hotness level, for stating monotonicity. -/
def levelRank (level : String) : ℕ :=
  if level = "fire" then 4
  else if level = "hot" then 3
  else if level = "warm" then 2
  else if level = "mild" then 1
  else 0

/-- `calculateDiscussionIntensity` result object. -/
structure DiscussionResult where
  level : String
  reason : String
deriving DecidableEq

/-- `calculateDiscussionIntensity(commentCount, points)` from
`src/utils/helpers.js`.  Comment counts are integers, so falsiness of
`commentCount` is `commentCount = 0`. -/
def calculateDiscussionIntensity (commentCount : ℤ) (points : ℚ) : Option DiscussionResult :=
  if commentCount = 0 ∨ commentCount < 10 then none
  else
    let ratioVal : ℚ := if 0 < points then (commentCount : ℚ) / points else 0
    if 200 ≤ commentCount then
      some (DiscussionResult.mk "intense" ("💬 " ++ toString commentCount ++ " comments"))
    else if 2 < ratioVal ∧ 50 ≤ commentCount then
      some (DiscussionResult.mk "controversial" "💬 Heated debate")
    else if 100 ≤ commentCount then
      some (DiscussionResult.mk "active" ("💬 " ++ toString commentCount ++ " discussing"))
    else
      none

/-- The stop-word set of `src/utils/helpers.js`, verbatim (the source list
contains `why` and `how` twice; duplicates are harmless for membership). -/
def STOP_WORDS : List String :=
  ["the", "a", "an", "and", "or", "but", "in", "on", "at", "to", "for",
   "of", "with", "by", "from", "is", "it", "as", "be", "was", "are",
   "been", "being", "have", "has", "had", "do", "does", "did", "will",
   "would", "could", "should", "may", "might", "must", "shall", "can",
   "this", "that", "these", "those", "i", "you", "he", "she", "we",
   "they", "what", "which", "who", "whom", "when", "where", "why", "how",
   "all", "each", "every", "both", "few", "more", "most", "other", "some",
   "such", "no", "nor", "not", "only", "own", "same", "so", "than", "too",
   "very", "just", "about", "into", "through", "during", "before", "after",
   "above", "below", "between", "under", "again", "further", "then", "once",
   "here", "there", "any", "my", "your", "its", "our", "their", "out", "up",
   "down", "off", "over", "now", "new", "also", "get", "got", "getting",
   "show", "ask", "hn", "via", "using", "use", "used", "make", "made",
   "video", "pdf", "why", "how", "im", "i\x27m", "dont", "don\x27t", "cant",
   "can\x27t", "wont", "won\x27t", "like", "need", "want", "way", "one", "two",
   "first", "last", "year", "years", "day", "days", "time", "still"]

/-- The tech-keyword set of `src/utils/helpers.js`, verbatim. -/
def TECH_KEYWORDS : List String :=
  ["ai", "ml", "gpt", "llm", "openai", "chatgpt", "claude", "gemini",
   "rust", "python", "javascript", "typescript", "golang", "swift",
   "react", "vue", "angular", "node", "deno", "bun",
   "linux", "windows", "macos", "android", "ios",
   "aws", "azure", "gcp", "cloud", "kubernetes", "docker",
   "blockchain", "crypto", "bitcoin", "ethereum", "web3",
   "startup", "vc", "funding", "ipo", "acquisition",
   "apple", "google", "microsoft", "meta", "amazon", "nvidia", "tesla",
   "security", "privacy", "hack", "breach", "vulnerability",
   "opensource", "github", "gitlab",
   "database", "sql", "postgres", "mongodb", "redis",
   "api", "sdk", "framework", "library"]

/-- A character matching the regex class `\w` (`[A-Za-z0-9_]`). -/
def isWordChar (c : Char) : Bool := c.isAlpha || c.isDigit || c = '_'

/-- A whitespace character as matched by `\s` (the forms that occur in titles). -/
def isJsSpace (c : Char) : Bool := c = ' ' || c = '\t' || c = '\n' || c = '\r'

/-- One step of `.replace(/[^\w\s-]/g, ' ')`. -/
def cleanChar (c : Char) : Char :=
  if isWordChar c || isJsSpace c || c = '-' then c else ' '

/-- Splitting on whitespace runs, as `.split(/\s+/)` does.  (JS keeps a
leading empty token when the string starts with whitespace; that token has
length 0 and is removed by the length filter, so we drop empties here.) -/
def splitWsAux (cs : List Char) (acc : List Char) : List (List Char) :=
  match cs with
  | [] => if acc.isEmpty then [] else [acc.reverse]
  | c :: rest =>
    if isJsSpace c then
      if acc.isEmpty then splitWsAux rest [] else acc.reverse :: splitWsAux rest []
    else
      splitWsAux rest (c :: acc)

/-- Split a character list on whitespace. -/
def splitWs (cs : List Char) : List (List Char) := splitWsAux cs []

/-- The token filter of `extractTrendingTopics`: length between 2 and 20,
not a stop word, not all digits (`/^\d+$/`). -/
def keepToken (w : String) : Bool :=
  decide (2 ≤ w.length) && decide (w.length ≤ 20) &&
    !(decide (w ∈ STOP_WORDS)) && !(!w.data.isEmpty && w.data.all Char.isDigit)

/-- Tokenize a title: lowercase, replace non-word characters by spaces,
split on whitespace, filter. -/
def tokenize (title : String) : List String :=
  ((splitWs ((title.data.map Char.toLower).map cleanChar)).map String.mk).filter keepToken

/-- First-occurrence deduplication with a seen-set accumulator. -/
def dedupFirstAux {α : Type} [DecidableEq α] (seen : List α) : List α → List α
  | [] => []
  | x :: xs =>
    if x ∈ seen then dedupFirstAux seen xs
    else x :: dedupFirstAux (x :: seen) xs

/-- First-occurrence deduplication, matching iteration over a JS `Set`
built from a list (insertion order, first occurrence kept). -/
def dedupFirst {α : Type} [DecidableEq α] (l : List α) : List α := dedupFirstAux [] l

/-- A story as consumed by `extractTrendingTopics`: a possibly missing
title and possibly missing points. -/
structure Story where
  title : Option String
  points : Option ℤ
deriving DecidableEq

/-- `story.points || 0`. -/
def storyPoints (s : Story) : ℤ := s.points.getD 0

/-- The per-story unique word list: empty when the title is falsy
(`!story.title`), otherwise the deduplicated token list. -/
def storyWords (s : Story) : List String :=
  match s.title with
  | none => []
  | some t => if t = "" then [] else dedupFirst (tokenize t)

/-- The per-word accumulator entry of the `wordCounts` map. -/
structure WordData where
  count : ℕ
  points : ℤ
deriving DecidableEq

/-- One `wordCounts` update: increment in place if the word is present
(keeping its position, as a JS `Map` does), else append a fresh entry. -/
def bumpWord (m : List (String × WordData)) (w : String) (pts : ℤ) :
    List (String × WordData) :=
  match m with
  | [] => [(w, WordData.mk 1 pts)]
  | (w', d) :: rest =>
    if w' = w then (w', WordData.mk (d.count + 1) (d.points + pts)) :: rest
    else (w', d) :: bumpWord rest w pts

/-- The full `wordCounts` accumulation over a story batch, in insertion
order (JS `Map` iteration order).  A story with a falsy title contributes
no words, which models the early `return`. -/
def accumulateWordCounts (stories : List Story) : List (String × WordData) :=
  stories.foldl
    (fun m s => (storyWords s).foldl (fun m' w => bumpWord m' w (storyPoints s)) m) []

/-- A trending topic as returned by `extractTrendingTopics`. -/
structure Topic where
  word : String
  count : ℕ
  weight : ℝ
  isTech : Bool

/-- `Math.round(x * 10) / 10` on a real weight. -/
noncomputable def jsRound10R (x : ℝ) : ℝ := ((⌊x * 10 + 1/2⌋ : ℤ) : ℝ) / 10

/-- The unrounded weight of line 264:
`count * (1 + Math.log10(Math.max(avgPoints, 1))) * techBonus`. -/
noncomputable def rawWeight (w : String) (d : WordData) : ℝ :=
  (d.count : ℝ) * (1 + Real.logb 10 (max ((d.points : ℝ) / (d.count : ℝ)) 1)) *
    (if w ∈ TECH_KEYWORDS then 1.5 else 1)

/-- The topic object built in the `.map` step; the weight is rounded to one
decimal place here, before the sort. -/
noncomputable def topicOf (w : String) (d : WordData) : Topic :=
  Topic.mk w d.count (jsRound10R (rawWeight w d)) (decide (w ∈ TECH_KEYWORDS))

/-- The comparator `(a, b) => b.weight - a.weight`: `a` may stay before `b`
exactly when `b.weight ≤ a.weight`. -/
noncomputable def topicLE (a b : Topic) : Bool := decide (b.weight ≤ a.weight)

/-- The qualifying topics: mapped (with rounded weight) then filtered to
`count >= 2`, in insertion order. -/
noncomputable def qualifyingTopics (stories : List Story) : List Topic :=
  (((accumulateWordCounts stories).map (fun p => topicOf p.1 p.2)).filter
    (fun t => decide (2 ≤ t.count)))

/-- `extractTrendingTopics(stories, limit)` from `src/utils/helpers.js`:
map, filter, stable sort descending by (rounded) weight, truncate. -/
noncomputable def extractTrendingTopics (stories : List Story) (limit : ℕ) : List Topic :=
  ((qualifyingTopics stories).mergeSort topicLE).take limit

/-- The call with the default `limit = 15`. -/
noncomputable def extractTrendingTopicsDefault (stories : List Story) : List Topic :=
  extractTrendingTopics stories 15

/-- Modelled from the claim for comparison: the pipeline as claim C6
states it, sorting and truncating on UNROUNDED weights and rounding only
at the output boundary. -/
noncomputable def unroundedTopicOf (w : String) (d : WordData) : Topic :=
  Topic.mk w d.count (rawWeight w d) (decide (w ∈ TECH_KEYWORDS))

/-- The claim-C6 variant of the comparator, on unrounded weights. -/
noncomputable def extractTrendingTopicsSpec (stories : List Story) (limit : ℕ) : List Topic :=
  (((((accumulateWordCounts stories).map (fun p => unroundedTopicOf p.1 p.2)).filter
      (fun t => decide (2 ≤ t.count))).mergeSort topicLE).take limit).map
    (fun t => Topic.mk t.word t.count (jsRound10R t.weight) t.isTech)

/-- The number of distinct stories whose (deduplicated, filtered) token
list contains `w`. -/
def countIn (stories : List Story) (w : String) : ℕ :=
  (stories.filter (fun s => decide (w ∈ storyWords s))).length

/-- The summed points of the stories whose token list contains `w`. -/
def pointsIn (stories : List Story) (w : String) : ℤ :=
  ((stories.filter (fun s => decide (w ∈ storyWords s))).map storyPoints).sum

/-- Lookup in the accumulator association list (first match). -/
def findData (m : List (String × WordData)) (w : String) : Option WordData :=
  match m with
  | [] => none
  | (w', d) :: rest => if w' = w then some d else findData rest w

/-- The keys of the accumulator, in order. -/
def keysOf (m : List (String × WordData)) : List String := m.map Prod.fst

/-- A two-story batch in which only `rust` occurs twice. -/
def rustStories : List Story :=
  [Story.mk (some "Rust oxide") (some 1), Story.mk (some "Rust iron") (some 3)]

/-- A four-story batch: `quantum` occurs in stories 1 and 3 (17 points in
total, average 8.5) and `rust` in stories 2 and 4 (4 points, average 2).
The unrounded weights are 2·(1+log10 8.5) ≈ 3.8588 for `quantum` and
3·(1+log10 2) ≈ 3.9031 for `rust`; both round to 3.9. -/
def quantumStories : List Story :=
  [Story.mk (some "Quantum leap") (some 8),
   Story.mk (some "Rust oxide") (some 1),
   Story.mk (some "Quantum jump") (some 9),
   Story.mk (some "Rust iron") (some 3)]

@[simp] theorem jsnum_sub_val (a b : ℚ) : JSNum.sub (.val a) (.val b) = .val (a - b) := rfl

@[simp] theorem jsnum_mul_val (a b : ℚ) : JSNum.mul (.val a) (.val b) = .val (a * b) := rfl

@[simp] theorem jsMax_val (a b : ℚ) : jsMax (.val a) (.val b) = .val (max a b) := rfl

theorem jsnum_div_val (a b : ℚ) (h : b ≠ 0) :
    JSNum.div (.val a) (.val b) = .val (a / b) := by
  simp [JSNum.div, h]

@[simp] theorem geC_val (q c : ℚ) : JSNum.geC (.val q) c = decide (c ≤ q) := rfl

@[simp] theorem ltC_val (q c : ℚ) : JSNum.ltC (.val q) c = decide (q < c) := rfl

@[simp] theorem round10N_val (q : ℚ) : JSNum.round10N (.val q) = .val (round10 q) := rfl

@[simp] theorem roundToString_val (q : ℚ) :
    (JSNum.val q).roundToString = toString (jsRound q) := rfl

theorem hoursOldQ_pos (now t : ℚ) : 0 < hoursOldQ now t :=
  lt_of_lt_of_le (by norm_num) (le_max_right _ _)

theorem calculateHotness_date_eq (now p t : ℚ) :
    calculateHotness now p (.date t) =
      HotnessResult.mk (.val (round10 (scoreQ now t p))) (.val (round10 (velocityQ now t p)))
        (levelOfScore (scoreQ now t p))
        (reasonOfScore (scoreQ now t p) (velocityQ now t p) (hoursOldQ now t))
        (some (.val (round10 (hoursOldQ now t)))) := by
  have h36 : (3600000 : ℚ) ≠ 0 := by norm_num
  have hmax : max ((now - t) / 3600000) (1/10 : ℚ) ≠ 0 := ne_of_gt (hoursOldQ_pos now t)
  have h4 : (4 : ℚ) ≠ 0 := by norm_num
  simp only [calculateHotness, JSTimestamp.timeValue, jsnum_sub_val,
    jsnum_div_val _ _ h36, jsMax_val, jsnum_div_val _ _ hmax, jsnum_div_val _ _ h4,
    jsnum_mul_val, geC_val, ltC_val, round10N_val, roundToString_val,
    levelOfScore, reasonOfScore, hoursOldQ, velocityQ, recencyMultiplierQ, scoreQ,
    decide_eq_true_eq]
  split_ifs <;> rfl

/-- C1 counterexample: for an invalid `Date` (a `Date` instance whose time
value is `NaN`), `calculateHotness` does NOT return the sentinel: the guard
only checks falsiness and `instanceof Date`, so the `NaN` time flows through
the arithmetic and the returned score is `NaN`, not `0` (and the object has
an `hoursOld` property, unlike the sentinel). -/
theorem c1_counterexample :
    calculateHotness 0 100 .invalidDate ≠ coldSentinel ∧
    (calculateHotness 0 100 .invalidDate).score = .nan := by
  constructor
  · intro h
    exact absurd (congrArg HotnessResult.score h) (by decide)
  · rfl

/-- C1 amended: for a `null`, `undefined` or other non-`Date` timestamp,
`calculateHotness` returns exactly the sentinel regardless of `points` and
never throws; an invalid `Date` instance, however, passes the guard and
yields `NaN` score, velocity and `hoursOld`, with level `'cold'` and
reason `null`. -/
theorem c1_invalid_timestamp (now p : ℚ) :
    calculateHotness now p .null = coldSentinel ∧
    calculateHotness now p .undef = coldSentinel ∧
    calculateHotness now p .notDate = coldSentinel ∧
    calculateHotness now p .invalidDate =
      HotnessResult.mk .nan .nan "cold" none (some .nan) :=
  ⟨rfl, rfl, rfl, rfl⟩

/-- C10: the degraded case (timestamp missing or not a `Date` instance)
returns an object without the `hoursOld` property (modelled as `none`),
while every object built on the normal path carries one. -/
theorem c10_hoursOld_property (now p t : ℚ) :
    (calculateHotness now p .null).hoursOld = none ∧
    (calculateHotness now p .undef).hoursOld = none ∧
    (calculateHotness now p .notDate).hoursOld = none ∧
    (calculateHotness now p (.date t)).hoursOld =
      some (.val (round10 (hoursOldQ now t))) ∧
    (calculateHotness now p .invalidDate).hoursOld = some .nan := by
  refine ⟨rfl, rfl, rfl, ?_, rfl⟩
  rw [calculateHotness_date_eq]

/-- C3 counterexample: for a story posted exactly at the current time the
floored age is 0.1 h, so the recency multiplier is `3 - 0.1/4 = 2.975`,
not the claimed 3. -/
theorem c3_counterexample :
    (calculateHotness 0 1 (.date 0)).hoursOld = some (.val (1/10)) ∧
    recencyMultiplierQ 0 0 = 119/40 ∧ (119/40 : ℚ) ≠ 3 := by
  have h1 : hoursOldQ 0 0 = 1/10 := by
    unfold hoursOldQ
    rw [sub_self, zero_div]
    exact max_eq_right (by norm_num)
  refine ⟨?_, ?_, by norm_num⟩
  · rw [calculateHotness_date_eq, h1]
    norm_num [round10, jsRound]
  · unfold recencyMultiplierQ
    rw [h1]
    norm_num

/-- C3 amended: with `timestamp = now` the age is floored to 0.1 h and the
recency multiplier is `2.975 = max(1, 3 - 0.1/4)`, which is the maximum
value the multiplier can take (over all timestamps). -/
theorem c3_floor_and_multiplier (now p : ℚ) (hp : 0 < p) :
    hoursOldQ now now = 1/10 ∧
    recencyMultiplierQ now now = 119/40 ∧
    (∀ t : ℚ, recencyMultiplierQ now t ≤ 119/40) ∧
    (calculateHotness now p (.date now)).hoursOld = some (.val (1/10)) := by
  have h1 : hoursOldQ now now = 1/10 := by
    unfold hoursOldQ
    rw [sub_self, zero_div]
    exact max_eq_right (by norm_num)
  refine ⟨h1, ?_, ?_, ?_⟩
  · unfold recencyMultiplierQ
    rw [h1]
    norm_num
  · intro t
    unfold recencyMultiplierQ
    have hle : (1/10 : ℚ) ≤ hoursOldQ now t := le_max_right _ _
    apply max_le (by norm_num)
    linarith
  · rw [calculateHotness_date_eq, h1]
    norm_num [round10, jsRound]

/-- Witness for C3: the amended statement at `now = 5`, `points = 2`. -/
theorem c3_floor_and_multiplier_witness :
    (0 : ℚ) < 2 ∧ (hoursOldQ 5 5 = 1/10 ∧
      recencyMultiplierQ 5 5 = 119/40 ∧
      (∀ t : ℚ, recencyMultiplierQ 5 t ≤ 119/40) ∧
      (calculateHotness 5 2 (.date 5)).hoursOld = some (.val (1/10))) :=
  ⟨by norm_num, c3_floor_and_multiplier 5 2 (by norm_num)⟩

/-- The floored age of a story that is `a` hours old. -/
theorem hoursOldQ_age (now a : ℚ) :
    hoursOldQ now (now - a * 3600000) = max a (1/10) := by
  unfold hoursOldQ
  have h : now - (now - a * 3600000) = a * 3600000 := by ring
  rw [h, mul_div_assoc]
  norm_num

/-- C4 counterexample: two distinct ages 0 h and 0.05 h inside the 0–8 h
window give the SAME score (the 0.1 h floor makes the score constant on
[0, 0.1]), so the score is not strictly decreasing from age 0. -/
theorem c4_counterexample :
    (0 : ℚ) < 1/20 ∧ (1/20 : ℚ) ≤ 8 ∧
    scoreQ 0 (0 - 0 * 3600000) 1 = scoreQ 0 (0 - (1/20) * 3600000) 1 := by
  refine ⟨by norm_num, by norm_num, ?_⟩
  unfold scoreQ velocityQ recencyMultiplierQ
  rw [hoursOldQ_age, hoursOldQ_age]
  norm_num

/-- C4 amended: for fixed `points > 0` the unrounded score is strictly
decreasing in the age on [0.1 h, 8 h], constant on the floored region
[0, 0.1 h], and for ages of 8 h or more the recency multiplier is pinned
at 1 so the score equals the velocity. -/
theorem c4_score_age (now p : ℚ) (hp : 0 < p) :
    (∀ a1 a2 : ℚ, 1/10 ≤ a1 → a1 < a2 → a2 ≤ 8 →
      scoreQ now (now - a2 * 3600000) p < scoreQ now (now - a1 * 3600000) p) ∧
    (∀ a : ℚ, 0 ≤ a → a ≤ 1/10 →
      scoreQ now (now - a * 3600000) p = scoreQ now (now - (1/10) * 3600000) p) ∧
    (∀ a : ℚ, 8 ≤ a →
      recencyMultiplierQ now (now - a * 3600000) = 1 ∧
      scoreQ now (now - a * 3600000) p =
        velocityQ now (now - a * 3600000) p) := by
  refine ⟨?_, ?_, ?_⟩
  · intro a1 a2 ha1 h12 ha2
    have hpos1 : (0 : ℚ) < a1 := lt_of_lt_of_le (by norm_num) ha1
    have hpos2 : (0 : ℚ) < a2 := lt_trans hpos1 h12
    have e1 : hoursOldQ now (now - a1 * 3600000) = a1 := by
      rw [hoursOldQ_age]; exact max_eq_left ha1
    have e2 : hoursOldQ now (now - a2 * 3600000) = a2 := by
      rw [hoursOldQ_age]; exact max_eq_left (le_trans ha1 (le_of_lt h12))
    have r1 : recencyMultiplierQ now (now - a1 * 3600000) = 3 - a1/4 := by
      unfold recencyMultiplierQ; rw [e1]; exact max_eq_right (by linarith)
    have r2 : recencyMultiplierQ now (now - a2 * 3600000) = 3 - a2/4 := by
      unfold recencyMultiplierQ; rw [e2]; exact max_eq_right (by linarith)
    unfold scoreQ velocityQ
    rw [e1, e2, r1, r2]
    have w1 : p / a1 * (3 - a1/4) = 3*p/a1 - p/4 := by field_simp; ring
    have w2 : p / a2 * (3 - a2/4) = 3*p/a2 - p/4 := by field_simp; ring
    rw [w1, w2]
    have hdiv : 3*p/a2 < 3*p/a1 := by
      apply div_lt_div_of_pos_left (by positivity) hpos1 h12
    linarith
  · intro a ha0 ha
    have e : hoursOldQ now (now - a * 3600000) = 1/10 := by
      rw [hoursOldQ_age]; exact max_eq_right ha
    have e' : hoursOldQ now (now - (1/10) * 3600000) = 1/10 := by
      rw [hoursOldQ_age]; exact max_self _
    unfold scoreQ velocityQ recencyMultiplierQ
    rw [e, e']
  · intro a ha
    have e : hoursOldQ now (now - a * 3600000) = a := by
      rw [hoursOldQ_age]; exact max_eq_left (by linarith)
    have hr : recencyMultiplierQ now (now - a * 3600000) = 1 := by
      unfold recencyMultiplierQ; rw [e]; exact max_eq_left (by linarith)
    exact ⟨hr, by unfold scoreQ; rw [hr, mul_one]⟩

/-- Witness for C4: the amended statement applied at `p = 1` with ages
1 h vs 2 h (strict decrease), 0.05 h (floor region), and 9 h (pinned
multiplier). -/
theorem c4_score_age_witness :
    (0 : ℚ) < 1 ∧
    scoreQ 0 (0 - 2 * 3600000) 1 < scoreQ 0 (0 - 1 * 3600000) 1 ∧
    scoreQ 0 (0 - (1/20) * 3600000) 1 = scoreQ 0 (0 - (1/10) * 3600000) 1 ∧
    recencyMultiplierQ 0 (0 - 9 * 3600000) = 1 := by
  have h := c4_score_age 0 1 (by norm_num)
  exact ⟨by norm_num, h.1 1 2 (by norm_num) (by norm_num) (by norm_num),
    h.2.1 (1/20) (by norm_num) (by norm_num), (h.2.2 9 (by norm_num)).1⟩

/-- C2: for a valid timestamp and `points ≥ 0`, the level and reason are
classified from the UNROUNDED score with first-match-wins thresholds at
100 / 50 / 20 / 5, the reasons being `🔥 round(velocity) pts/hr` for
fire and hot, the same with `📈` for warm, `🆕 Fresh` for mild fresher
than 2 h (else `null`), and `null` for cold. -/
theorem c2_threshold_classification (now t p : ℚ) (hp : 0 ≤ p) :
    (100 ≤ scoreQ now t p →
      (calculateHotness now p (.date t)).level = "fire" ∧
      (calculateHotness now p (.date t)).reason =
        some ("🔥 " ++ toString (jsRound (velocityQ now t p)) ++ " pts/hr")) ∧
    (50 ≤ scoreQ now t p ∧ scoreQ now t p < 100 →
      (calculateHotness now p (.date t)).level = "hot" ∧
      (calculateHotness now p (.date t)).reason =
        some ("🔥 " ++ toString (jsRound (velocityQ now t p)) ++ " pts/hr")) ∧
    (20 ≤ scoreQ now t p ∧ scoreQ now t p < 50 →
      (calculateHotness now p (.date t)).level = "warm" ∧
      (calculateHotness now p (.date t)).reason =
        some ("📈 " ++ toString (jsRound (velocityQ now t p)) ++ " pts/hr")) ∧
    (5 ≤ scoreQ now t p ∧ scoreQ now t p < 20 →
      (calculateHotness now p (.date t)).level = "mild" ∧
      (calculateHotness now p (.date t)).reason =
        (if hoursOldQ now t < 2 then some "🆕 Fresh" else none)) ∧
    (scoreQ now t p < 5 →
      (calculateHotness now p (.date t)).level = "cold" ∧
      (calculateHotness now p (.date t)).reason = none) := by
  rw [calculateHotness_date_eq]
  refine ⟨?_, ?_, ?_, ?_, ?_⟩ <;> intro h
  · exact ⟨by simp [levelOfScore, h], by simp [reasonOfScore, h]⟩
  · exact ⟨by simp [levelOfScore, h.1, not_le.mpr h.2],
      by simp [reasonOfScore, h.1, not_le.mpr h.2]⟩
  · have h50 : ¬(50 ≤ scoreQ now t p) := not_le.mpr h.2
    have h100 : ¬(100 ≤ scoreQ now t p) := by push_neg at h50 ⊢; linarith
    exact ⟨by simp [levelOfScore, h.1, h50, h100],
      by simp [reasonOfScore, h.1, h50, h100]⟩
  · have h20 : ¬(20 ≤ scoreQ now t p) := not_le.mpr h.2
    have h50 : ¬(50 ≤ scoreQ now t p) := by push_neg at h20 ⊢; linarith
    have h100 : ¬(100 ≤ scoreQ now t p) := by push_neg at h50 ⊢; linarith
    exact ⟨by simp [levelOfScore, h.1, h20, h50, h100],
      by simp [reasonOfScore, h.1, h20, h50, h100]⟩
  · have h5 : ¬(5 ≤ scoreQ now t p) := not_le.mpr h
    have h20 : ¬(20 ≤ scoreQ now t p) := by push_neg at h5 ⊢; linarith
    have h50 : ¬(50 ≤ scoreQ now t p) := by push_neg at h20 ⊢; linarith
    have h100 : ¬(100 ≤ scoreQ now t p) := by push_neg at h50 ⊢; linarith
    exact ⟨by simp [levelOfScore, h5, h20, h50, h100],
      by simp [reasonOfScore, h5, h20, h50, h100]⟩

/-- Witness for C2: `now` 4 h after a post with 200 points gives velocity
50 and unrounded score exactly 100, classified `fire`. -/
theorem c2_threshold_classification_witness :
    (0 : ℚ) ≤ 200 ∧
    ((calculateHotness 14400000 200 (.date 0)).level = "fire" ∧
     (calculateHotness 14400000 200 (.date 0)).reason =
       some ("🔥 " ++ toString (jsRound (velocityQ 14400000 0 200)) ++ " pts/hr")) := by
  refine ⟨by norm_num, (c2_threshold_classification 14400000 0 200 (by norm_num)).1 ?_⟩
  unfold scoreQ velocityQ recencyMultiplierQ hoursOldQ
  norm_num

/-- C7 counterexample: two calls whose RETURNED (rounded) scores are both
100.0 but whose levels differ — unrounded score 99.95 rounds up to 100.0
yet classifies as `hot`, while unrounded 100 classifies as `fire`.  The
returned level is therefore not a function of the returned score. -/
theorem c7_counterexample :
    (calculateHotness 14400000 (1999/10) (.date 0)).score =
      (calculateHotness 14400000 200 (.date 0)).score ∧
    (calculateHotness 14400000 (1999/10) (.date 0)).level = "hot" ∧
    (calculateHotness 14400000 200 (.date 0)).level = "fire" := by
  have e1 := calculateHotness_date_eq 14400000 (1999/10) 0
  have e2 := calculateHotness_date_eq 14400000 200 0
  have s1 : scoreQ 14400000 0 (1999/10) = 1999/20 := by
    unfold scoreQ velocityQ recencyMultiplierQ hoursOldQ; norm_num
  have s2 : scoreQ 14400000 0 200 = 100 := by
    unfold scoreQ velocityQ recencyMultiplierQ hoursOldQ; norm_num
  refine ⟨?_, ?_, ?_⟩
  · rw [e1, e2]
    simp only [s1, s2]
    norm_num [round10, jsRound]
  · rw [e1]
    simp only [s1]
    norm_num [levelOfScore]
  · rw [e2]
    simp only [s2]
    norm_num [levelOfScore]

/-- The level, as a function of the unrounded score, is monotone in the
rank order cold < mild < warm < hot < fire. -/
theorem levelRank_mono (s1 s2 : ℚ) (h : s1 ≤ s2) :
    levelRank (levelOfScore s1) ≤ levelRank (levelOfScore s2) := by
  unfold levelOfScore
  split_ifs <;> simp [levelRank] <;> linarith

/-- C7 amended: for valid timestamps the level is a deterministic,
monotonic function of the UNROUNDED score (equal unrounded scores give
equal levels, a larger unrounded score never gives a lower level); the
reason is non-null only for fire, hot, warm, or mild with age < 2 h; and
the returned score, velocity and hoursOld are the unrounded quantities
rounded to one decimal place only at the output boundary. -/
theorem c7_level_of_unrounded_score (now1 t1 p1 now2 t2 p2 : ℚ) :
    (scoreQ now1 t1 p1 = scoreQ now2 t2 p2 →
      (calculateHotness now1 p1 (.date t1)).level =
        (calculateHotness now2 p2 (.date t2)).level) ∧
    (scoreQ now1 t1 p1 ≤ scoreQ now2 t2 p2 →
      levelRank (calculateHotness now1 p1 (.date t1)).level ≤
        levelRank (calculateHotness now2 p2 (.date t2)).level) ∧
    ((calculateHotness now1 p1 (.date t1)).reason ≠ none →
      (calculateHotness now1 p1 (.date t1)).level = "fire" ∨
      (calculateHotness now1 p1 (.date t1)).level = "hot" ∨
      (calculateHotness now1 p1 (.date t1)).level = "warm" ∨
      ((calculateHotness now1 p1 (.date t1)).level = "mild" ∧
        hoursOldQ now1 t1 < 2)) ∧
    ((calculateHotness now1 p1 (.date t1)).score =
        .val (round10 (scoreQ now1 t1 p1)) ∧
     (calculateHotness now1 p1 (.date t1)).velocity =
        .val (round10 (velocityQ now1 t1 p1)) ∧
     (calculateHotness now1 p1 (.date t1)).hoursOld =
        some (.val (round10 (hoursOldQ now1 t1)))) := by
  rw [calculateHotness_date_eq, calculateHotness_date_eq]
  refine ⟨?_, ?_, ?_, rfl, rfl, rfl⟩
  · intro h
    show levelOfScore _ = levelOfScore _
    rw [h]
  · intro h
    exact levelRank_mono _ _ h
  · show reasonOfScore _ _ _ ≠ none → _
    unfold reasonOfScore levelOfScore
    split_ifs with h1 h2 h3 h4 h5 <;> intro hh
    · exact Or.inl rfl
    · exact Or.inr (Or.inl rfl)
    · exact Or.inr (Or.inr (Or.inl rfl))
    · exact Or.inr (Or.inr (Or.inr ⟨rfl, h5⟩))
    · exact absurd rfl hh
    · exact absurd rfl hh

/-- Witness for C7: equal unrounded scores give equal levels, and score 50
ranks no higher than score 100. -/
theorem c7_level_of_unrounded_score_witness :
    (calculateHotness 14400000 200 (.date 0)).level =
      (calculateHotness 14400000 200 (.date 0)).level ∧
    levelRank (calculateHotness 14400000 100 (.date 0)).level ≤
      levelRank (calculateHotness 14400000 200 (.date 0)).level := by
  refine ⟨(c7_level_of_unrounded_score 14400000 0 200 14400000 0 200).1 rfl,
    (c7_level_of_unrounded_score 14400000 0 100 14400000 0 200).2.1 ?_⟩
  unfold scoreQ velocityQ recencyMultiplierQ hoursOldQ
  norm_num

/-- C8: `calculateDiscussionIntensity` returns `null` for a falsy comment
count or one below 10; otherwise, with the ratio taken as `commentCount /
points` (0 when `points ≤ 0`), it classifies first-match-wins:
`intense` at 200+ comments, else `controversial` when ratio > 2 with 50+
comments, else `active` at 100+ comments, else `null`. -/
theorem c8_discussion_intensity (cc : ℤ) (pts : ℚ) :
    ((cc = 0 ∨ cc < 10) → calculateDiscussionIntensity cc pts = none) ∧
    (¬(cc = 0 ∨ cc < 10) →
      (200 ≤ cc →
        (calculateDiscussionIntensity cc pts).map DiscussionResult.level =
          some "intense") ∧
      (cc < 200 → 2 < (if 0 < pts then (cc : ℚ) / pts else 0) → 50 ≤ cc →
        (calculateDiscussionIntensity cc pts).map DiscussionResult.level =
          some "controversial") ∧
      (cc < 200 → ¬(2 < (if 0 < pts then (cc : ℚ) / pts else 0) ∧ 50 ≤ cc) →
        100 ≤ cc →
        (calculateDiscussionIntensity cc pts).map DiscussionResult.level =
          some "active") ∧
      (cc < 200 → ¬(2 < (if 0 < pts then (cc : ℚ) / pts else 0) ∧ 50 ≤ cc) →
        cc < 100 →
        calculateDiscussionIntensity cc pts = none)) := by
  unfold calculateDiscussionIntensity
  constructor
  · intro h
    rw [if_pos h]
  · intro h
    rw [if_neg h]
    dsimp only
    refine ⟨?_, ?_, ?_, ?_⟩
    · intro h200
      rw [if_pos h200]
      rfl
    · intro h200 hr h50
      rw [if_neg (not_le.mpr h200), if_pos ⟨hr, h50⟩]
      rfl
    · intro h200 hnc h100
      rw [if_neg (not_le.mpr h200), if_neg hnc, if_pos h100]
      rfl
    · intro h200 hnc h100
      rw [if_neg (not_le.mpr h200), if_neg hnc, if_neg (not_le.mpr h100)]

/-- Witness for C8: the four documented calls — (9,100) is below the
10-comment floor, (250,100) is intense, (60,20) is controversial
(ratio 3 > 2 with 60 ≥ 50 comments), (120,1000) is active. -/
theorem c8_discussion_intensity_witness :
    calculateDiscussionIntensity 9 100 = none ∧
    (calculateDiscussionIntensity 250 100).map DiscussionResult.level =
      some "intense" ∧
    (calculateDiscussionIntensity 60 20).map DiscussionResult.level =
      some "controversial" ∧
    (calculateDiscussionIntensity 120 1000).map DiscussionResult.level =
      some "active" := by
  refine ⟨(c8_discussion_intensity 9 100).1 (Or.inr (by norm_num)),
    ((c8_discussion_intensity 250 100).2 (by norm_num)).1 (by norm_num),
    ((c8_discussion_intensity 60 20).2 (by norm_num)).2.1 (by norm_num) ?_
      (by norm_num),
    ((c8_discussion_intensity 120 1000).2 (by norm_num)).2.2.1 (by norm_num) ?_
      (by norm_num)⟩
  · rw [if_pos (by norm_num : (0:ℚ) < 20)]
    norm_num
  · rw [if_pos (by norm_num : (0:ℚ) < 1000)]
    norm_num

@[simp] theorem topicOf_word (w : String) (d : WordData) : (topicOf w d).word = w := rfl

@[simp] theorem topicOf_count (w : String) (d : WordData) : (topicOf w d).count = d.count := rfl

/-- C9: a tech keyword receives exactly 1.5 times the (unrounded) weight
of a non-tech word with the same count and points, per the formula
`weight = count * (1 + log10(max(avgPoints, 1))) * techBonus`. -/
theorem c9_tech_bonus (w1 w2 : String) (d : WordData)
    (h1 : w1 ∈ TECH_KEYWORDS) (h2 : w2 ∉ TECH_KEYWORDS) :
    rawWeight w1 d = 1.5 * rawWeight w2 d := by
  unfold rawWeight
  rw [if_pos h1, if_neg h2]
  ring

/-- Witness for C9: `rust` is a tech keyword, `quantum` is not, and for
count 2 with 10 points the former weighs exactly 1.5 times the latter. -/
theorem c9_tech_bonus_witness :
    "rust" ∈ TECH_KEYWORDS ∧ "quantum" ∉ TECH_KEYWORDS ∧
    rawWeight "rust" (WordData.mk 2 10) =
      1.5 * rawWeight "quantum" (WordData.mk 2 10) :=
  ⟨by decide, by decide, c9_tech_bonus "rust" "quantum" _ (by decide) (by decide)⟩

theorem dedupFirstAux_mem {α : Type} [DecidableEq α] (l : List α) :
    ∀ (seen : List α) (x : α), x ∈ dedupFirstAux seen l ↔ x ∈ l ∧ x ∉ seen := by
  induction l with
  | nil => intro seen x; simp [dedupFirstAux]
  | cons y ys ih =>
    intro seen x
    rw [dedupFirstAux]
    by_cases hy : y ∈ seen
    · rw [if_pos hy, ih]
      simp only [List.mem_cons]
      constructor
      · exact fun h => ⟨Or.inr h.1, h.2⟩
      · rintro ⟨hxy | hxs, hns⟩
        · exact absurd (hxy ▸ hy) hns
        · exact ⟨hxs, hns⟩
    · rw [if_neg hy]
      simp only [List.mem_cons, ih (y :: seen) x, List.mem_cons]
      constructor
      · rintro (rfl | ⟨hxs, hnot⟩)
        · exact ⟨Or.inl rfl, hy⟩
        · exact ⟨Or.inr hxs, fun hc => hnot (Or.inr hc)⟩
      · rintro ⟨hxy | hxs, hns⟩
        · exact Or.inl hxy
        · by_cases hxy : x = y
          · exact Or.inl hxy
          · exact Or.inr ⟨hxs, fun hc => hc.elim hxy hns⟩

theorem dedupFirst_mem {α : Type} [DecidableEq α] (l : List α) (x : α) :
    x ∈ dedupFirst l ↔ x ∈ l := by
  rw [dedupFirst, dedupFirstAux_mem]
  simp

theorem dedupFirstAux_nodup {α : Type} [DecidableEq α] (l : List α) :
    ∀ seen : List α, (dedupFirstAux seen l).Nodup := by
  induction l with
  | nil => intro seen; simp [dedupFirstAux]
  | cons y ys ih =>
    intro seen
    rw [dedupFirstAux]
    by_cases hy : y ∈ seen
    · rw [if_pos hy]; exact ih seen
    · rw [if_neg hy, List.nodup_cons]
      refine ⟨?_, ih (y :: seen)⟩
      intro hmem
      exact ((dedupFirstAux_mem ys (y :: seen) y).mp hmem).2 (List.mem_cons_self y seen)

theorem dedupFirst_nodup {α : Type} [DecidableEq α] (l : List α) :
    (dedupFirst l).Nodup := dedupFirstAux_nodup l []

theorem storyWords_nodup (s : Story) : (storyWords s).Nodup := by
  unfold storyWords
  match s.title with
  | none => exact List.nodup_nil
  | some t =>
    by_cases h : t = ""
    · simp [h]
    · simp only [h, if_neg h]
      exact dedupFirst_nodup _

theorem findData_bumpWord_self (m : List (String × WordData)) (w : String) (pts : ℤ) :
    findData (bumpWord m w pts) w =
      some (match findData m w with
        | none => WordData.mk 1 pts
        | some d => WordData.mk (d.count + 1) (d.points + pts)) := by
  induction m with
  | nil => simp [bumpWord, findData]
  | cons hd tl ih =>
    obtain ⟨w', d⟩ := hd
    by_cases h : w' = w
    · subst h
      simp [bumpWord, findData]
    · simp only [bumpWord, findData, if_neg h]
      exact ih

theorem findData_bumpWord_other (m : List (String × WordData)) (w w' : String)
    (pts : ℤ) (h : w' ≠ w) :
    findData (bumpWord m w pts) w' = findData m w' := by
  induction m with
  | nil =>
    simp only [bumpWord, findData]
    rw [if_neg (fun hh => h (Eq.symm hh))]
  | cons hd tl ih =>
    obtain ⟨w'', d⟩ := hd
    by_cases h2 : w'' = w
    · subst h2
      simp only [bumpWord, if_pos rfl, findData]
      rw [if_neg (fun hh => h (Eq.symm hh)), if_neg (fun hh => h (Eq.symm hh))]
    · simp only [bumpWord, if_neg h2, findData]
      by_cases h3 : w'' = w'
      · rw [if_pos h3, if_pos h3]
      · rw [if_neg h3, if_neg h3]
        exact ih

theorem findData_foldl_bump (ws : List String) (pts : ℤ) :
    ∀ (m : List (String × WordData)) (w : String), ws.Nodup →
    findData (ws.foldl (fun m' x => bumpWord m' x pts) m) w =
      if w ∈ ws then
        some (match findData m w with
          | none => WordData.mk 1 pts
          | some d => WordData.mk (d.count + 1) (d.points + pts))
      else findData m w := by
  induction ws with
  | nil =>
    intro m w _
    simp
  | cons x xs ih =>
    intro m w hnd
    have hnd' : xs.Nodup := (List.nodup_cons.mp hnd).2
    simp only [List.foldl_cons]
    by_cases hw : w = x
    · subst hw
      have hnotin : w ∉ xs := (List.nodup_cons.mp hnd).1
      rw [ih _ _ hnd', if_neg hnotin, findData_bumpWord_self,
        if_pos (List.mem_cons_self w xs)]
    · rw [ih _ _ hnd', findData_bumpWord_other _ _ _ _ hw]
      by_cases hx : w ∈ xs
      · rw [if_pos hx, if_pos (List.mem_cons_of_mem x hx)]
      · rw [if_neg hx, if_neg (by simp [hw, hx])]

theorem countIn_cons_mem (s : Story) (ss : List Story) (w : String)
    (h : w ∈ storyWords s) : countIn (s :: ss) w = countIn ss w + 1 := by
  unfold countIn
  rw [List.filter_cons, if_pos (decide_eq_true h), List.length_cons]

theorem countIn_cons_not_mem (s : Story) (ss : List Story) (w : String)
    (h : w ∉ storyWords s) : countIn (s :: ss) w = countIn ss w := by
  unfold countIn
  rw [List.filter_cons, if_neg (by simpa using h)]

theorem pointsIn_cons_mem (s : Story) (ss : List Story) (w : String)
    (h : w ∈ storyWords s) :
    pointsIn (s :: ss) w = storyPoints s + pointsIn ss w := by
  unfold pointsIn
  rw [List.filter_cons, if_pos (decide_eq_true h), List.map_cons, List.sum_cons]

theorem pointsIn_cons_not_mem (s : Story) (ss : List Story) (w : String)
    (h : w ∉ storyWords s) : pointsIn (s :: ss) w = pointsIn ss w := by
  unfold pointsIn
  rw [List.filter_cons, if_neg (by simpa using h)]

theorem findData_accumulate_from (stories : List Story) :
    ∀ (m : List (String × WordData)) (w : String),
    findData (stories.foldl
      (fun m s => (storyWords s).foldl (fun m' x => bumpWord m' x (storyPoints s)) m) m) w =
      match findData m w with
      | none =>
        if countIn stories w = 0 then none
        else some (WordData.mk (countIn stories w) (pointsIn stories w))
      | some d =>
        some (WordData.mk (d.count + countIn stories w) (d.points + pointsIn stories w)) := by
  induction stories with
  | nil =>
    intro m w
    simp only [List.foldl_nil]
    cases hfd : findData m w with
    | none => simp [countIn, pointsIn]
    | some d => simp [countIn, pointsIn]
  | cons s ss ih =>
    intro m w
    simp only [List.foldl_cons]
    rw [ih, findData_foldl_bump _ _ _ _ (storyWords_nodup s)]
    by_cases hmem : w ∈ storyWords s
    · rw [if_pos hmem]
      rw [countIn_cons_mem s ss w hmem, pointsIn_cons_mem s ss w hmem]
      cases hfd : findData m w with
      | none =>
        dsimp only
        rw [if_neg (by omega : ¬(countIn ss w + 1 = 0))]
        simp only [Option.some.injEq, WordData.mk.injEq]
        exact ⟨by omega, trivial⟩
      | some d =>
        dsimp only
        simp only [Option.some.injEq, WordData.mk.injEq]
        exact ⟨by omega, by ring⟩
    · rw [if_neg hmem]
      rw [countIn_cons_not_mem s ss w hmem, pointsIn_cons_not_mem s ss w hmem]

theorem findData_accumulateWordCounts (stories : List Story) (w : String) :
    findData (accumulateWordCounts stories) w =
      if countIn stories w = 0 then none
      else some (WordData.mk (countIn stories w) (pointsIn stories w)) := by
  unfold accumulateWordCounts
  exact findData_accumulate_from stories [] w

theorem keysOf_bumpWord (m : List (String × WordData)) (w : String) (pts : ℤ) :
    keysOf (bumpWord m w pts) =
      if w ∈ keysOf m then keysOf m else keysOf m ++ [w] := by
  induction m with
  | nil => simp [bumpWord, keysOf]
  | cons hd tl ih =>
    obtain ⟨w', d⟩ := hd
    by_cases h : w' = w
    · subst h
      simp [bumpWord, keysOf]
    · have hne : ¬(w = w') := fun hh => h (Eq.symm hh)
      simp only [bumpWord, if_neg h, keysOf, List.map_cons] at ih ⊢
      rw [ih]
      by_cases hmem : w ∈ tl.map Prod.fst
      · rw [if_pos hmem, if_pos (List.mem_cons_of_mem _ hmem)]
      · rw [if_neg hmem, if_neg (by simp [hne, hmem]), List.cons_append]

theorem keysOf_bumpWord_nodup (m : List (String × WordData)) (w : String) (pts : ℤ)
    (h : (keysOf m).Nodup) : (keysOf (bumpWord m w pts)).Nodup := by
  rw [keysOf_bumpWord]
  by_cases hmem : w ∈ keysOf m
  · rwa [if_pos hmem]
  · rw [if_neg hmem]
    simp [List.nodup_append, h, hmem]

theorem keys_nodup_foldl_bump (ws : List String) (pts : ℤ) :
    ∀ m : List (String × WordData), (keysOf m).Nodup →
    (keysOf (ws.foldl (fun m' x => bumpWord m' x pts) m)).Nodup := by
  induction ws with
  | nil => intro m h; simpa using h
  | cons x xs ih =>
    intro m h
    simp only [List.foldl_cons]
    exact ih _ (keysOf_bumpWord_nodup m x pts h)

theorem keys_nodup_accumulateWordCounts (stories : List Story) :
    (keysOf (accumulateWordCounts stories)).Nodup := by
  unfold accumulateWordCounts
  have h : ∀ m : List (String × WordData), (keysOf m).Nodup →
      (keysOf (stories.foldl
        (fun m s => (storyWords s).foldl (fun m' x => bumpWord m' x (storyPoints s)) m)
        m)).Nodup := by
    induction stories with
    | nil => intro m hm; simpa using hm
    | cons s ss ih =>
      intro m hm
      simp only [List.foldl_cons]
      exact ih _ (keys_nodup_foldl_bump _ _ _ hm)
  exact h [] (by simp [keysOf])

theorem findData_of_mem (m : List (String × WordData)) (w : String) (d : WordData)
    (hnd : (keysOf m).Nodup) (hmem : (w, d) ∈ m) : findData m w = some d := by
  induction m with
  | nil => cases hmem
  | cons hd tl ih =>
    obtain ⟨w', d'⟩ := hd
    rw [keysOf, List.map_cons, List.nodup_cons] at hnd
    rcases List.mem_cons.mp hmem with heq | htl
    · have h1 : w = w' := congrArg Prod.fst heq
      have h2 : d = d' := congrArg Prod.snd heq
      subst h1
      subst h2
      simp [findData]
    · have hw : w' ≠ w := by
        intro hh
        subst hh
        exact hnd.1 (List.mem_map.mpr ⟨(w', d), htl, rfl⟩)
      simp only [findData, if_neg hw]
      exact ih hnd.2 htl

/-- C5: every topic returned by `extractTrendingTopics` has `count` equal
to the number of distinct stories whose (per-story deduplicated) token
list contains that word, and no returned topic has `count < 2`. -/
theorem c5_topic_count (stories : List Story) (limit : ℕ) (t : Topic)
    (ht : t ∈ extractTrendingTopics stories limit) :
    t.count = countIn stories t.word ∧ 2 ≤ t.count := by
  have h1 : t ∈ (qualifyingTopics stories).mergeSort topicLE :=
    List.take_subset _ _ ht
  have h2 : t ∈ qualifyingTopics stories := List.mem_mergeSort.mp h1
  unfold qualifyingTopics at h2
  have h3 := List.mem_filter.mp h2
  have hcount2 : 2 ≤ t.count := by simpa using h3.2
  obtain ⟨p, hp, hpt⟩ := List.mem_map.mp h3.1
  obtain ⟨w, d⟩ := p
  have hfd : findData (accumulateWordCounts stories) w = some d :=
    findData_of_mem _ _ _ (keys_nodup_accumulateWordCounts stories) hp
  rw [findData_accumulateWordCounts] at hfd
  by_cases h0 : countIn stories w = 0
  · rw [if_pos h0] at hfd
    cases hfd
  · rw [if_neg h0] at hfd
    have hd : WordData.mk (countIn stories w) (pointsIn stories w) = d :=
      Option.some.inj hfd
    refine ⟨?_, hcount2⟩
    rw [← hpt, topicOf_count, topicOf_word, ← hd]

/-- Witness for C5: in the two-story batch `rustStories` the only
qualifying topic is `rust` with count 2, which indeed equals the number
of stories containing it. -/
theorem c5_topic_count_witness :
    topicOf "rust" (WordData.mk 2 4) ∈ extractTrendingTopics rustStories 15 ∧
    ((topicOf "rust" (WordData.mk 2 4)).count =
       countIn rustStories (topicOf "rust" (WordData.mk 2 4)).word ∧
     2 ≤ (topicOf "rust" (WordData.mk 2 4)).count) := by
  have hacc : accumulateWordCounts rustStories =
      [("rust", WordData.mk 2 4), ("oxide", WordData.mk 1 1),
       ("iron", WordData.mk 1 3)] := by decide
  have he : extractTrendingTopics rustStories 15 =
      [topicOf "rust" (WordData.mk 2 4)] := by
    unfold extractTrendingTopics qualifyingTopics
    rw [hacc]
    simp only [List.map_cons, List.map_nil, List.filter_cons, List.filter_nil,
      topicOf_count]
    norm_num
  have hmem : topicOf "rust" (WordData.mk 2 4) ∈ extractTrendingTopics rustStories 15 := by
    rw [he]
    exact List.mem_singleton.mpr rfl
  exact ⟨hmem, c5_topic_count rustStories 15 _ hmem⟩

@[simp] theorem topicOf_weight (w : String) (d : WordData) :
    (topicOf w d).weight = jsRound10R (rawWeight w d) := rfl

@[simp] theorem unroundedTopicOf_word (w : String) (d : WordData) :
    (unroundedTopicOf w d).word = w := rfl

@[simp] theorem unroundedTopicOf_count (w : String) (d : WordData) :
    (unroundedTopicOf w d).count = d.count := rfl

@[simp] theorem unroundedTopicOf_weight (w : String) (d : WordData) :
    (unroundedTopicOf w d).weight = rawWeight w d := rfl

theorem perm_pair_cases {α : Type} (a b : α) (l : List α) (h : l.Perm [a, b])
    (hne : a ≠ b) : l = [a, b] ∨ l = [b, a] := by
  have hlen : l.length = 2 := by simpa using h.length_eq
  cases l with
  | nil => simp at hlen
  | cons x l2 =>
    cases l2 with
    | nil => simp at hlen
    | cons y l3 =>
      cases l3 with
      | cons z l4 => simp at hlen
      | nil =>
        have hx : x ∈ [a, b] := h.mem_iff.mp (by simp)
        have hy : y ∈ [a, b] := h.mem_iff.mp (by simp)
        simp only [List.mem_cons, List.not_mem_nil, or_false, List.mem_singleton] at hx hy
        rcases hx with rfl | rfl <;> rcases hy with rfl | rfl
        · exfalso
          have hb := h.mem_iff.mpr (List.mem_cons_of_mem _ (List.mem_singleton.mpr rfl))
          simp only [List.mem_cons, List.not_mem_nil, or_false, or_self] at hb
          exact hne hb.symm
        · exact Or.inl rfl
        · exact Or.inr rfl
        · exfalso
          have ha := h.mem_iff.mpr (List.mem_cons_self _ _)
          simp only [List.mem_cons, List.not_mem_nil, or_false, or_self] at ha
          exact hne ha

theorem logb10_lt_of_pow_lt (x : ℝ) (k n : ℕ) (hx : 0 < x) (hn : 0 < n)
    (h : x ^ n < 10 ^ k) : Real.logb 10 x < (k : ℝ) / n := by
  have h1 : Real.logb 10 (x ^ n) < Real.logb 10 ((10 : ℝ) ^ k) :=
    Real.logb_lt_logb (by norm_num) (by positivity) h
  rw [Real.logb_pow, Real.logb_pow, Real.logb_self_eq_one (by norm_num), mul_one] at h1
  rw [lt_div_iff (by exact_mod_cast hn : (0 : ℝ) < n)]
  linarith [mul_comm (n : ℝ) (Real.logb 10 x)]

theorem lt_logb10_of_pow_lt (x : ℝ) (k n : ℕ) (hx : 0 < x) (hn : 0 < n)
    (h : (10 : ℝ) ^ k < x ^ n) : (k : ℝ) / n < Real.logb 10 x := by
  have h1 : Real.logb 10 ((10 : ℝ) ^ k) < Real.logb 10 (x ^ n) :=
    Real.logb_lt_logb (by norm_num) (by positivity) h
  rw [Real.logb_pow, Real.logb_pow, Real.logb_self_eq_one (by norm_num), mul_one] at h1
  rw [div_lt_iff (by exact_mod_cast hn : (0 : ℝ) < n)]
  linarith [mul_comm (n : ℝ) (Real.logb 10 x)]

theorem logb_two_bounds : (3 : ℝ)/10 < Real.logb 10 2 ∧ Real.logb 10 2 < (19 : ℝ)/60 := by
  constructor
  · have h := lt_logb10_of_pow_lt 2 3 10 (by norm_num) (by norm_num) (by norm_num)
    norm_num at h
    exact h
  · have h := logb10_lt_of_pow_lt 2 19 60 (by norm_num) (by norm_num) (by norm_num)
    norm_num at h
    exact h

theorem logb_halfseventeen_bounds :
    (37 : ℝ)/40 < Real.logb 10 (17/2) ∧ Real.logb 10 (17/2) < (39 : ℝ)/40 := by
  constructor
  · have h := lt_logb10_of_pow_lt (17/2) 37 40 (by norm_num) (by norm_num) (by norm_num)
    norm_num at h
    exact h
  · have h := logb10_lt_of_pow_lt (17/2) 39 40 (by norm_num) (by norm_num) (by norm_num)
    norm_num at h
    exact h

theorem rawWeight_quantum :
    rawWeight "quantum" (WordData.mk 2 17) = 2 * (1 + Real.logb 10 (17/2)) := by
  unfold rawWeight
  rw [if_neg (show "quantum" ∉ TECH_KEYWORDS by decide)]
  norm_num

theorem rawWeight_rust :
    rawWeight "rust" (WordData.mk 2 4) = 3 * (1 + Real.logb 10 2) := by
  unfold rawWeight
  rw [if_pos (show "rust" ∈ TECH_KEYWORDS by decide)]
  norm_num
  ring

theorem rounded_weight_quantum :
    jsRound10R (rawWeight "quantum" (WordData.mk 2 17)) = 39/10 := by
  rw [rawWeight_quantum]
  unfold jsRound10R
  have hfl : ⌊2 * (1 + Real.logb 10 (17/2)) * 10 + 1/2⌋ = (39 : ℤ) := by
    rw [Int.floor_eq_iff]
    constructor
    · push_cast
      nlinarith [logb_halfseventeen_bounds.1]
    · push_cast
      nlinarith [logb_halfseventeen_bounds.2]
  rw [hfl]
  norm_num

theorem rounded_weight_rust :
    jsRound10R (rawWeight "rust" (WordData.mk 2 4)) = 39/10 := by
  rw [rawWeight_rust]
  unfold jsRound10R
  have hfl : ⌊3 * (1 + Real.logb 10 2) * 10 + 1/2⌋ = (39 : ℤ) := by
    rw [Int.floor_eq_iff]
    constructor
    · push_cast
      nlinarith [logb_two_bounds.1]
    · push_cast
      nlinarith [logb_two_bounds.2]
  rw [hfl]
  norm_num

theorem rawWeight_quantum_lt_rust :
    rawWeight "quantum" (WordData.mk 2 17) < rawWeight "rust" (WordData.mk 2 4) := by
  rw [rawWeight_quantum, rawWeight_rust]
  have e1 : (3 : ℝ) * Real.logb 10 2 = Real.logb 10 8 := by
    rw [show (8 : ℝ) = 2 ^ (3 : ℕ) by norm_num, Real.logb_pow]
    norm_num
  have e2 : (2 : ℝ) * Real.logb 10 (17/2) = Real.logb 10 (289/4) := by
    rw [show (289/4 : ℝ) = (17/2) ^ (2 : ℕ) by norm_num, Real.logb_pow]
    norm_num
  have e3 : Real.logb 10 80 = 1 + Real.logb 10 8 := by
    rw [show (80 : ℝ) = 10 * 8 by norm_num,
      Real.logb_mul (by norm_num) (by norm_num),
      Real.logb_self_eq_one (by norm_num)]
  have hlt : Real.logb 10 (289/4) < Real.logb 10 80 :=
    Real.logb_lt_logb (by norm_num) (by norm_num) (by norm_num)
  nlinarith [e1, e2, e3, hlt]

theorem topicLE_trans (a b c : Topic) (hab : topicLE a b) (hbc : topicLE b c) :
    topicLE a c := by
  simp only [topicLE, decide_eq_true_eq] at *
  exact le_trans hbc hab

theorem topicLE_total (a b : Topic) : topicLE a b || topicLE b a := by
  simp only [topicLE]
  rcases le_total a.weight b.weight with h | h <;> simp [h]

theorem accumulate_quantumStories :
    accumulateWordCounts quantumStories =
      [("quantum", WordData.mk 2 17), ("leap", WordData.mk 1 8),
       ("rust", WordData.mk 2 4), ("oxide", WordData.mk 1 1),
       ("jump", WordData.mk 1 9), ("iron", WordData.mk 1 3)] := by decide

theorem qualifying_quantumStories :
    qualifyingTopics quantumStories =
      [topicOf "quantum" (WordData.mk 2 17), topicOf "rust" (WordData.mk 2 4)] := by
  unfold qualifyingTopics
  rw [accumulate_quantumStories]
  simp only [List.map_cons, List.map_nil, List.filter_cons, List.filter_nil,
    topicOf_count]
  norm_num

theorem sorted_code_quantumStories :
    (qualifyingTopics quantumStories).mergeSort topicLE =
      [topicOf "quantum" (WordData.mk 2 17), topicOf "rust" (WordData.mk 2 4)] := by
  rw [qualifying_quantumStories]
  apply List.mergeSort_of_sorted
  refine List.pairwise_cons.mpr ⟨?_, List.pairwise_singleton _ _⟩
  intro b hb
  rw [List.mem_singleton.mp hb]
  simp only [topicLE, topicOf_weight, rounded_weight_quantum, rounded_weight_rust]
  norm_num

/-- The extractor output on `quantumStories`: the rounded weights tie
(both are 3.9), so the stable sort keeps the `Map` insertion order. -/
theorem extract_quantumStories :
    (extractTrendingTopics quantumStories 15).map Topic.word =
      ["quantum", "rust"] := by
  unfold extractTrendingTopics
  rw [sorted_code_quantumStories,
    List.take_of_length_le (by norm_num)]
  simp

theorem sorted_spec_quantumStories :
    ([unroundedTopicOf "quantum" (WordData.mk 2 17),
      unroundedTopicOf "rust" (WordData.mk 2 4)]).mergeSort topicLE =
      [unroundedTopicOf "rust" (WordData.mk 2 4),
       unroundedTopicOf "quantum" (WordData.mk 2 17)] := by
  have hne : unroundedTopicOf "quantum" (WordData.mk 2 17) ≠
      unroundedTopicOf "rust" (WordData.mk 2 4) := by
    intro hcontra
    have := congrArg Topic.word hcontra
    simp only [unroundedTopicOf_word] at this
    exact absurd this (by decide)
  have hperm := List.mergeSort_perm
    [unroundedTopicOf "quantum" (WordData.mk 2 17),
     unroundedTopicOf "rust" (WordData.mk 2 4)] topicLE
  have hsorted := List.sorted_mergeSort topicLE_trans topicLE_total
    [unroundedTopicOf "quantum" (WordData.mk 2 17),
     unroundedTopicOf "rust" (WordData.mk 2 4)]
  rcases perm_pair_cases _ _ _ hperm hne with heq | heq
  · exfalso
    rw [heq] at hsorted
    have hle := (List.pairwise_cons.mp hsorted).1 _ (List.mem_singleton.mpr rfl)
    simp only [topicLE, unroundedTopicOf_weight, decide_eq_true_eq] at hle
    exact absurd hle (not_le.mpr rawWeight_quantum_lt_rust)
  · exact heq

/-- The claim-C6 pipeline output on `quantumStories`: sorting the
unrounded weights puts `rust` (≈3.9031) before `quantum` (≈3.8588). -/
theorem extract_spec_quantumStories :
    (extractTrendingTopicsSpec quantumStories 15).map Topic.word =
      ["rust", "quantum"] := by
  unfold extractTrendingTopicsSpec
  rw [accumulate_quantumStories]
  simp only [List.map_cons, List.map_nil, List.filter_cons, List.filter_nil,
    unroundedTopicOf_count]
  norm_num
  rw [sorted_spec_quantumStories, List.take_of_length_le (by norm_num)]
  simp

/-- C6 counterexample: on `quantumStories` the code's output order is
`quantum, rust` (the weights are rounded to one decimal inside the map
step, tie at 3.9, stable sort keeps insertion order), while the pipeline
the claim describes — sort and truncate on UNROUNDED weights, round only
at the output boundary — yields `rust, quantum`.  So the sort does not
operate on unrounded weights. -/
theorem c6_counterexample :
    (extractTrendingTopics quantumStories 15).map Topic.word = ["quantum", "rust"] ∧
    (extractTrendingTopicsSpec quantumStories 15).map Topic.word = ["rust", "quantum"] ∧
    (extractTrendingTopics quantumStories 15).map Topic.word ≠
      (extractTrendingTopicsSpec quantumStories 15).map Topic.word := by
  refine ⟨extract_quantumStories, extract_spec_quantumStories, ?_⟩
  rw [extract_quantumStories, extract_spec_quantumStories]
  decide

/-- C6 amended: `extractTrendingTopics` returns the qualifying topics
sorted in descending order of their stored weights — which are rounded to
one decimal place in the map step, BEFORE the sort — with the stable sort
keeping insertion order on rounded-weight ties, truncated to at most
`limit` entries; every returned topic is a qualifying topic (count ≥ 2)
whose weight is the rounded raw weight. -/
theorem c6_rounded_sort (stories : List Story) (limit : ℕ) :
    (extractTrendingTopics stories limit).Pairwise
      (fun a b => b.weight ≤ a.weight) ∧
    (extractTrendingTopics stories limit).length ≤ limit ∧
    (∀ a b : Topic, List.Sublist [a, b] (qualifyingTopics stories) →
      b.weight ≤ a.weight →
      List.Sublist [a, b] ((qualifyingTopics stories).mergeSort topicLE)) ∧
    (∀ t ∈ extractTrendingTopics stories limit,
      ∃ p ∈ accumulateWordCounts stories,
        t = topicOf p.1 p.2 ∧ 2 ≤ t.count ∧
        t.weight = jsRound10R (rawWeight p.1 p.2)) := by
  refine ⟨?_, ?_, ?_, ?_⟩
  · have hs := List.sorted_mergeSort topicLE_trans topicLE_total
      (qualifyingTopics stories)
    have hsub : List.Sublist (extractTrendingTopics stories limit)
        ((qualifyingTopics stories).mergeSort topicLE) := List.take_sublist _ _
    exact (List.Pairwise.sublist hsub hs).imp
      (fun h => by simpa [topicLE] using h)
  · exact List.length_take_le _ _
  · intro a b hsub hw
    exact List.pair_sublist_mergeSort topicLE_trans topicLE_total
      (by simpa [topicLE] using hw) hsub
  · intro t ht
    have h1 : t ∈ (qualifyingTopics stories).mergeSort topicLE :=
      List.take_subset _ _ ht
    have h2 : t ∈ qualifyingTopics stories := List.mem_mergeSort.mp h1
    unfold qualifyingTopics at h2
    have h3 := List.mem_filter.mp h2
    obtain ⟨p, hp, hpt⟩ := List.mem_map.mp h3.1
    refine ⟨p, hp, hpt.symm, by simpa using h3.2, ?_⟩
    rw [← hpt, topicOf_weight]

/-- Witness for C6: on `quantumStories` the rounded-weight tie (both 3.9)
keeps the pair `quantum, rust` in insertion order through the stable sort,
and the output is within the default limit. -/
theorem c6_rounded_sort_witness :
    List.Sublist
      [topicOf "quantum" (WordData.mk 2 17), topicOf "rust" (WordData.mk 2 4)]
      ((qualifyingTopics quantumStories).mergeSort topicLE) ∧
    (extractTrendingTopics quantumStories 15).length ≤ 15 := by
  refine ⟨(c6_rounded_sort quantumStories 15).2.2.1 _ _ ?_ ?_,
    (c6_rounded_sort quantumStories 15).2.1⟩
  · rw [qualifying_quantumStories]
  · simp only [topicOf_weight, rounded_weight_quantum, rounded_weight_rust]
    exact le_rfl
